import Mathlib

/-!
Verification of the mazeconnect experiment server (`2ac_server.py`,
`2ac_gpioserver.py`) against its natural-language specification.

The Python classes are shallowly embedded: the `Monitor` sensor state and its
byte-protocol handler become a pure state-transition function on `MonitorState`;
the polling wait helpers become functions over a finite trace of observed
snapshots; the `Controller` scheduler loop becomes functions over its command
queue (an event trace for ordering, an `Except`-valued run for backend errors);
`Trials` (the reward allocator) becomes a state-passing function with the
pseudo-random draws supplied by an explicit stream `Nat → Fin 2`.
-/

namespace Mazeconnect

/-! ## Monitor: sensor state and the byte protocol

`Monitor` keeps four `threading.Event` flags.  `open_connection` reads up to
1024 bytes from each accepted connection and compares the whole received
buffer against the one-byte flag constants `b'0'`..`b'4'` (ASCII 48..52).
A message is modelled as the list of received byte values. -/

structure MonitorState where
  in_trial_zone : Bool
  left_nose_poke : Bool
  right_nose_poke : Bool
  stop : Bool
deriving DecidableEq

namespace Monitor

/-- `STOP = b'0'` (one byte, ASCII 48). -/
def STOP : List Nat := [48]

/-- `MOUSE_IN = b'1'`. -/
def MOUSE_IN : List Nat := [49]

/-- `MOUSE_OUT = b'2'`. -/
def MOUSE_OUT : List Nat := [50]

/-- `LEFT_NOSE_POKE = b'3'`. -/
def LEFT_NOSE_POKE : List Nat := [51]

/-- `RIGHT_NOSE_POKE = b'4'`. -/
def RIGHT_NOSE_POKE : List Nat := [52]

/-- Initial state: all `threading.Event` flags are unset. -/
def init : MonitorState :=
  { in_trial_zone := false, left_nose_poke := false,
    right_nose_poke := false, stop := false }

/-- One iteration of the body of `Monitor.open_connection`: compare the
received buffer `data` against the flag constants, in source order, and
apply the corresponding state transition (the final `else` sets `stop`). -/
def receive (s : MonitorState) (data : List Nat) : MonitorState :=
  if data = STOP then { s with stop := true }
  else if data = MOUSE_IN then { s with in_trial_zone := true }
  else if data = MOUSE_OUT then { s with in_trial_zone := false }
  else if data = LEFT_NOSE_POKE then { s with left_nose_poke := true }
  else if data = RIGHT_NOSE_POKE then { s with right_nose_poke := true }
  else { s with stop := true }

/-- `Device.running`: `not self.stop.is_set()`. -/
def running (s : MonitorState) : Bool := !s.stop

/-- The `while self.running():` accept loop of `open_connection`, applied to a
finite sequence of incoming messages: each message is processed only if the
loop guard still holds. -/
def monitorLoop (s : MonitorState) : List (List Nat) → MonitorState
  | [] => s
  | d :: rest => if running s then monitorLoop (receive s d) rest else s

/-- `Monitor.nose_poke_side`, translated branch for branch. -/
def nose_poke_side (s : MonitorState) : String :=
  if s.left_nose_poke && !s.right_nose_poke then "left"
  else if s.right_nose_poke && !s.left_nose_poke then "right"
  else if s.left_nose_poke && s.right_nose_poke then "both"
  else "none"

end Monitor

/-! ## Monitor: the polling wait helpers

`wait_for_entrance`, `wait_for_leaving` and `wait_for_nose_poke` poll the
flags in a busy loop; each iteration reads the watched flag(s), the elapsed
time `time.time() - t0`, and the stop flag.  A run of the loop is modelled
over the finite trace of snapshots the iterations observe; `none` means the
trace ended with the loop still spinning. -/

structure WaitObs where
  in_trial_zone : Bool
  left_nose_poke : Bool
  right_nose_poke : Bool
  stop : Bool
  /-- the value of `time.time() - t0` computed by this iteration -/
  t : ℚ
deriving DecidableEq

/-- `timeout is not None and t >= timeout`. -/
def timeoutHit (timeout : Option ℚ) (t : ℚ) : Bool :=
  match timeout with
  | none => false
  | some T => decide (T ≤ t)

/-- `Monitor.wait_for_entrance`: loop while `in_trial_zone` is unset; inside
the loop return `False` on timeout, then return `False` on stop; return
`True` once the flag is seen set. -/
def wait_for_entrance (timeout : Option ℚ) : List WaitObs → Option Bool
  | [] => none
  | o :: rest =>
    if !o.in_trial_zone then
      if timeoutHit timeout o.t then some false
      else if o.stop then some false
      else wait_for_entrance timeout rest
    else some true

/-- `Monitor.wait_for_leaving`: same loop with the guard `in_trial_zone`
still set. -/
def wait_for_leaving (timeout : Option ℚ) : List WaitObs → Option Bool
  | [] => none
  | o :: rest =>
    if o.in_trial_zone then
      if timeoutHit timeout o.t then some false
      else if o.stop then some false
      else wait_for_leaving timeout rest
    else some true

/-- `Monitor.wait_for_nose_poke`: loop while neither poke flag is set. -/
def wait_for_nose_poke (timeout : Option ℚ) : List WaitObs → Option Bool
  | [] => none
  | o :: rest =>
    if !(o.left_nose_poke || o.right_nose_poke) then
      if timeoutHit timeout o.t then some false
      else if o.stop then some false
      else wait_for_nose_poke timeout rest
    else some true

/-- The three terminating events a wait call can end with, as named by the
specification. -/
inductive WaitOutcome
  | success
  | timedOut
  | stopped
deriving DecidableEq

/-- Modelled from the spec's words for `wait_for_entrance`: which of the three
terminating events (condition held / timeout elapsed / stop observed) ends the
wait on a given trace.  Used to compare against the Boolean the code returns. -/
def entranceOutcome (timeout : Option ℚ) : List WaitObs → Option WaitOutcome
  | [] => none
  | o :: rest =>
    if !o.in_trial_zone then
      if timeoutHit timeout o.t then some WaitOutcome.timedOut
      else if o.stop then some WaitOutcome.stopped
      else entranceOutcome timeout rest
    else some WaitOutcome.success

/-- Spec-side outcome classifier for `wait_for_leaving`. -/
def leavingOutcome (timeout : Option ℚ) : List WaitObs → Option WaitOutcome
  | [] => none
  | o :: rest =>
    if o.in_trial_zone then
      if timeoutHit timeout o.t then some WaitOutcome.timedOut
      else if o.stop then some WaitOutcome.stopped
      else leavingOutcome timeout rest
    else some WaitOutcome.success

/-- Spec-side outcome classifier for `wait_for_nose_poke`. -/
def nosePokeOutcome (timeout : Option ℚ) : List WaitObs → Option WaitOutcome
  | [] => none
  | o :: rest =>
    if !(o.left_nose_poke || o.right_nose_poke) then
      if timeoutHit timeout o.t then some WaitOutcome.timedOut
      else if o.stop then some WaitOutcome.stopped
      else nosePokeOutcome timeout rest
    else some WaitOutcome.success

/-! ## Controller: the per-actuator scheduler loop

`Controller.play` enqueues a tuple
`(duration, offset, rest, condition, condition_timeout)`; the dedicated
`player` thread dequeues one tuple at a time and runs
`condition.wait; sleep offset; on(); sleep duration; off(); sleep rest`.
The queue contents are modelled as a list of `Command`s. -/

structure Command where
  duration : ℚ
  offset : ℚ
  rest : ℚ
  /-- state of the gate `Event` (the default gate is pre-set) -/
  conditionSet : Bool
  conditionTimeout : Option ℚ
deriving DecidableEq

/-- The `on()`/`off()` calls the `player` loop makes, tagged with the queue
position of the command being executed. -/
inductive ControllerEv
  | on (idx : Nat)
  | off (idx : Nat)
deriving DecidableEq

/-- The sequence of backend calls `Controller.player` makes while consuming a
queue, starting at queue position `i`: per command, `on()` then `off()`,
then the next command. -/
def playerEvents : Nat → List Command → List ControllerEv
  | _, [] => []
  | i, _ :: rest => ControllerEv.on i :: ControllerEv.off i :: playerEvents (i + 1) rest

/-- `Controller.player` with a fallible backend: `onr`/`offr` are the results
of the `on()`/`off()` calls.  The loop body contains no try/except, so a
raised error propagates out of the loop; the value is the number of commands
the loop completed before terminating. -/
def playerRunE (onr offr : Except String Unit) : List Command → Except String Nat
  | [] => Except.ok 0
  | _ :: rest =>
    match onr with
    | Except.error e => Except.error e
    | Except.ok _ =>
      match offr with
      | Except.error e => Except.error e
      | Except.ok _ =>
        match playerRunE onr offr rest with
        | Except.error e => Except.error e
        | Except.ok n => Except.ok (n + 1)

/-- Modelled from the spec's words: a scheduler loop in which a backend
failure inside `on()`/`off()` is caught, the command is treated as if it
completed, and the loop continues to the next command. -/
def playerRunCaught (onr offr : Except String Unit) : List Command → Except String Nat
  | [] => Except.ok 0
  | _ :: rest =>
    match playerRunCaught onr offr rest with
    | Except.error e => Except.error e
    | Except.ok n => Except.ok (n + 1)

/-! ## SoundPlayer: the speaker's payload

`SoundPlayer.on` plays `self.sound` — a mutable field of the actuator
instance — and the enqueued command tuple carries no payload.  In `main`
the orchestrator writes `speaker.sound = pygame.mixer.Sound(tone)` after
`speaker.play(1)` has been enqueued.  Sound buffers are abstracted to `Nat`
identifiers; the interleaving of orchestrator writes and scheduler
executions is modelled as an explicit action sequence. -/

structure SpeakerState where
  /-- `self.sound` (a `pygame.mixer.Sound` or `None`) -/
  sound : Option Nat
  /-- the `on`-phase durations of the queued commands -/
  queued : List ℚ
  /-- log of the buffers played by successive `on()` calls -/
  played : List (Option Nat)
deriving DecidableEq

/-- `SoundPlayer.on`: `self.sound.play() if self.sound is not None else None` —
the buffer that starts playing is whatever `self.sound` holds now. -/
def soundOn (s : SpeakerState) : Option Nat := s.sound

inductive SpeakerAction
  /-- orchestrator: `speaker.play(d)` (enqueue, non-blocking) -/
  | enqueue (d : ℚ)
  /-- orchestrator: `speaker.sound = pygame.mixer.Sound(x)` -/
  | setSound (x : Nat)
  /-- scheduler thread: dequeue one command and execute it -/
  | execOne
deriving DecidableEq

def speakerStep (s : SpeakerState) : SpeakerAction → SpeakerState
  | SpeakerAction.enqueue d => { s with queued := s.queued ++ [d] }
  | SpeakerAction.setSound x => { s with sound := some x }
  | SpeakerAction.execOne =>
    match s.queued with
    | [] => s
    | _ :: rest => { s with queued := rest, played := s.played ++ [soundOn s] }

def speakerRun (s : SpeakerState) (acts : List SpeakerAction) : SpeakerState :=
  acts.foldl speakerStep s

/-! ## Trial outcome determination

The outcome block of `main` (both variants), as a function of the Boolean
returned by `wait_for_nose_poke(timeout=10.0)`, the measured
`time.time() - t0`, the value of `monitor.nose_poke_side()` and the rewarded
side.  The result is `(outcome, t, dispense)` where `dispense` records
whether a reward command was enqueued on the rewarded side's dispenser. -/

def outcomeStep (nose_poke : Bool) (tdiff : ℚ) (side correct : String) :
    String × ℚ × Bool :=
  let t : ℚ := if nose_poke then tdiff else 10
  if nose_poke then
    if side = correct then ("correct", t, true) else ("incorrect", t, false)
  else ("time out", t, false)

/-! ## Trials: the reward allocator

`Trials.next` mutates `(buffer, i, reward_position)` and consumes one draw of
`random.randint(0, 1)` only on its random branch.  The PRNG (a seeded
`random.Random`) is modelled as an arbitrary stream `rng : Nat → Fin 2`
together with the index `k` of the next unconsumed draw. -/

structure Trials where
  max_repeat : Nat
  buffer : List Int
  i : Nat
  reward_position : Option Int
deriving DecidableEq

/-- `Trials.positions = ("left", "right")`. -/
def positions : List String := ["left", "right"]

/-- `Trials.__init__` (the `seed` argument only seeds the global PRNG, which
is modelled by the stream, so it does not appear in the state). -/
def Trials.init (max_repeat : Nat) : Trials :=
  { max_repeat := max_repeat, buffer := [], i := 0, reward_position := none }

/-- Python `l[-m:]` on a list: the last `m` elements, except that `l[-0:]`
is the whole list. -/
def pySliceLast (l : List Int) (m : Nat) : List Int :=
  if m = 0 then l else l.drop (l.length - m)

/-- Python `l[p]` with an `Int` index: non-negative indices from the front,
negative indices from the back, `none` for the out-of-range `IndexError`. -/
def pyIndex (l : List String) (p : Int) : Option String :=
  if 0 ≤ p then l.get? p.toNat
  else if 0 ≤ p + l.length then l.get? (p + l.length).toNat
  else none

/-- The common tail of `Trials.next` after `reward_position` has been chosen:
append to the buffer, keep `buffer[-max_repeat:]`, increment `i`, and return
`(i, positions[reward_position])`.  `k'` is the next unconsumed PRNG index. -/
def Trials.finish (s : Trials) (pos : Int) (k' : Nat) :
    Option ((Nat × String) × Trials × Nat) :=
  let buffer' := pySliceLast (s.buffer ++ [pos]) s.max_repeat
  let i' := s.i + 1
  match pyIndex positions pos with
  | none => none
  | some side =>
    some ((i', side),
      { s with buffer := buffer', i := i', reward_position := some pos }, k')

/-- `Trials.next`: if `len(set(self.buffer)) == 1` flip the previous side
(`abs(self.reward_position - 1)`; a `TypeError` — modelled as `none` — if
`reward_position` is still `None`), otherwise draw `random.randint(0, 1)`. -/
def Trials.next (s : Trials) (rng : Nat → Fin 2) (k : Nat) :
    Option ((Nat × String) × Trials × Nat) :=
  if s.buffer.toFinset.card = 1 then
    match s.reward_position with
    | none => none
    | some p => s.finish |p - 1| k
  else
    s.finish ((rng k).val : Int) (k + 1)

/-- The reward sides returned by `n` successive `Trials.next()` calls on one
instance (`none` as soon as one call raises). -/
def Trials.runSides (s : Trials) (rng : Nat → Fin 2) (k : Nat) :
    Nat → Option (List String)
  | 0 => some []
  | n + 1 =>
    match s.next rng k with
    | none => none
    | some ((_, side), s', k') =>
      match s'.runSides rng k' n with
      | none => none
      | some rest => some (side :: rest)

/-- Modelled from the claim's words (the algorithm the spec states):
force the opposite side exactly when the history is full
(`buffer.length = max_repeat`) and every entry is the same side; in every
other case draw uniformly at random. -/
def TrialsClaim.next (s : Trials) (rng : Nat → Fin 2) (k : Nat) :
    Option ((Nat × String) × Trials × Nat) :=
  if s.buffer.length = s.max_repeat ∧ ∀ x ∈ s.buffer, ∀ y ∈ s.buffer, x = y then
    match s.reward_position with
    | none => none
    | some p => s.finish |p - 1| k
  else
    s.finish ((rng k).val : Int) (k + 1)

/-- `Trials.runSides` for the claim's algorithm. -/
def TrialsClaim.runSides (s : Trials) (rng : Nat → Fin 2) (k : Nat) :
    Nat → Option (List String)
  | 0 => some []
  | n + 1 =>
    match TrialsClaim.next s rng k with
    | none => none
    | some ((_, side), s', k') =>
      match TrialsClaim.runSides s' rng k' n with
      | none => none
      | some rest => some (side :: rest)

/-- Amended condition, in the words forced by the counterexample: the flip is
taken whenever the history is nonempty and every entry is the same side,
regardless of whether it is full. -/
def TrialsAmended.next (s : Trials) (rng : Nat → Fin 2) (k : Nat) :
    Option ((Nat × String) × Trials × Nat) :=
  if s.buffer ≠ [] ∧ ∀ x ∈ s.buffer, ∀ y ∈ s.buffer, x = y then
    match s.reward_position with
    | none => none
    | some p => s.finish |p - 1| k
  else
    s.finish ((rng k).val : Int) (k + 1)

/-! ## Helper lemmas -/

/-- A stopped monitor processes no further messages: the accept loop's guard
fails immediately. -/
lemma monitorLoop_of_not_running (s : MonitorState) (h : Monitor.running s = false) :
    ∀ rest, Monitor.monitorLoop s rest = s := by
  intro rest
  cases rest with
  | nil => rfl
  | cons d r => simp [Monitor.monitorLoop, h]

/-- `wait_for_entrance` returns `True` exactly on the success outcome and
`False` exactly on the timed-out and stopped outcomes. -/
lemma entrance_bool_vs_outcome (timeout : Option ℚ) : ∀ tr : List WaitObs,
    (wait_for_entrance timeout tr = some true ↔
      entranceOutcome timeout tr = some WaitOutcome.success) ∧
    (wait_for_entrance timeout tr = some false ↔
      entranceOutcome timeout tr = some WaitOutcome.timedOut ∨
      entranceOutcome timeout tr = some WaitOutcome.stopped) := by
  intro tr
  induction tr with
  | nil => simp [wait_for_entrance, entranceOutcome]
  | cons o rest ih =>
    by_cases h1 : o.in_trial_zone
    · simp [wait_for_entrance, entranceOutcome, h1]
    · by_cases h2 : timeoutHit timeout o.t
      · simp [wait_for_entrance, entranceOutcome, h1, h2]
      · by_cases h3 : o.stop
        · simp [wait_for_entrance, entranceOutcome, h1, h2, h3]
        · simpa [wait_for_entrance, entranceOutcome, h1, h2, h3] using ih

/-- Same correspondence for `wait_for_leaving`. -/
lemma leaving_bool_vs_outcome (timeout : Option ℚ) : ∀ tr : List WaitObs,
    (wait_for_leaving timeout tr = some true ↔
      leavingOutcome timeout tr = some WaitOutcome.success) ∧
    (wait_for_leaving timeout tr = some false ↔
      leavingOutcome timeout tr = some WaitOutcome.timedOut ∨
      leavingOutcome timeout tr = some WaitOutcome.stopped) := by
  intro tr
  induction tr with
  | nil => simp [wait_for_leaving, leavingOutcome]
  | cons o rest ih =>
    by_cases h1 : o.in_trial_zone
    · by_cases h2 : timeoutHit timeout o.t
      · simp [wait_for_leaving, leavingOutcome, h1, h2]
      · by_cases h3 : o.stop
        · simp [wait_for_leaving, leavingOutcome, h1, h2, h3]
        · simpa [wait_for_leaving, leavingOutcome, h1, h2, h3] using ih
    · simp [wait_for_leaving, leavingOutcome, h1]

/-- Same correspondence for `wait_for_nose_poke`. -/
lemma nose_poke_bool_vs_outcome (timeout : Option ℚ) : ∀ tr : List WaitObs,
    (wait_for_nose_poke timeout tr = some true ↔
      nosePokeOutcome timeout tr = some WaitOutcome.success) ∧
    (wait_for_nose_poke timeout tr = some false ↔
      nosePokeOutcome timeout tr = some WaitOutcome.timedOut ∨
      nosePokeOutcome timeout tr = some WaitOutcome.stopped) := by
  intro tr
  induction tr with
  | nil => simp [wait_for_nose_poke, nosePokeOutcome]
  | cons o rest ih =>
    by_cases h1 : o.left_nose_poke || o.right_nose_poke
    · simp [wait_for_nose_poke, nosePokeOutcome, h1]
    · by_cases h2 : timeoutHit timeout o.t
      · simp [wait_for_nose_poke, nosePokeOutcome, h1, h2]
      · by_cases h3 : o.stop
        · simp [wait_for_nose_poke, nosePokeOutcome, h1, h2, h3]
        · simpa [wait_for_nose_poke, nosePokeOutcome, h1, h2, h3] using ih

/-! ## Claim C3 -/

/-- C3 counterexample: with a backend whose `on()` raises, the scheduler loop
over a two-command queue terminates with the propagated error and completes
zero commands, while the loop the claim describes (errors caught, command
treated as completed, loop continues) completes both.  The scheduler loop
does not catch the error. -/
theorem c3_counterexample :
    playerRunE (Except.error "hw") (Except.ok ())
        [⟨1, 0, 0, true, none⟩, ⟨1, 0, 0, true, none⟩] = Except.error "hw" ∧
    playerRunCaught (Except.error "hw") (Except.ok ())
        [⟨1, 0, 0, true, none⟩, ⟨1, 0, 0, true, none⟩] = Except.ok 2 ∧
    (Except.error "hw" : Except String Nat) ≠ Except.ok 2 :=
  ⟨rfl, rfl, by simp⟩

/-- C3 amended: an error raised by either backend call is not caught inside
the scheduler loop — whether `on()` raises (whatever `off()` would have
returned) or `on()` succeeds and `off()` raises, the error propagates, the
loop terminates at once, and no command in the queue is completed. -/
theorem c3_amended (e : String) (offr : Except String Unit) (c : Command)
    (rest : List Command) :
    playerRunE (Except.error e) offr (c :: rest) = Except.error e ∧
    playerRunE (Except.ok ()) (Except.error e) (c :: rest) = Except.error e :=
  ⟨rfl, rfl⟩

/-! ## Claim C4 -/

/-- C4 counterexample: a trace that terminates by timeout and a trace that
terminates by the stop signal make `wait_for_entrance` return the very same
result (`False`), so the returned result does not distinguish the three
terminating events. -/
theorem c4_counterexample :
    wait_for_entrance (some 5) [⟨false, false, false, false, 10⟩] =
      wait_for_entrance (some 5) [⟨false, false, false, true, 0⟩] ∧
    entranceOutcome (some 5) [⟨false, false, false, false, 10⟩] =
      some WaitOutcome.timedOut ∧
    entranceOutcome (some 5) [⟨false, false, false, true, 0⟩] =
      some WaitOutcome.stopped ∧
    WaitOutcome.timedOut ≠ WaitOutcome.stopped := by
  refine ⟨?_, ?_, ?_, by simp⟩ <;> decide

/-- C4 amended: each of the three wait helpers returns a Boolean that
distinguishes success (`True`) from failure (`False`), where failure covers
both the elapsed timeout and the observed stop signal without telling them
apart. -/
theorem c4_amended (timeout : Option ℚ) (tr : List WaitObs) :
    ((wait_for_entrance timeout tr = some true ↔
        entranceOutcome timeout tr = some WaitOutcome.success) ∧
     (wait_for_entrance timeout tr = some false ↔
        entranceOutcome timeout tr = some WaitOutcome.timedOut ∨
        entranceOutcome timeout tr = some WaitOutcome.stopped)) ∧
    ((wait_for_leaving timeout tr = some true ↔
        leavingOutcome timeout tr = some WaitOutcome.success) ∧
     (wait_for_leaving timeout tr = some false ↔
        leavingOutcome timeout tr = some WaitOutcome.timedOut ∨
        leavingOutcome timeout tr = some WaitOutcome.stopped)) ∧
    ((wait_for_nose_poke timeout tr = some true ↔
        nosePokeOutcome timeout tr = some WaitOutcome.success) ∧
     (wait_for_nose_poke timeout tr = some false ↔
        nosePokeOutcome timeout tr = some WaitOutcome.timedOut ∨
        nosePokeOutcome timeout tr = some WaitOutcome.stopped)) :=
  ⟨entrance_bool_vs_outcome timeout tr, leaving_bool_vs_outcome timeout tr,
    nose_poke_bool_vs_outcome timeout tr⟩

/-! ## Claim C5 -/

/-- C5 counterexample: two runs that differ only in a write to the speaker's
shared `sound` field made after the enqueue (`speaker.play(1)` then
`speaker.sound = Sound(tone)`, exactly as `main` does) play different
payloads, so the payload does not travel inside the enqueued command. -/
theorem c5_counterexample :
    (speakerRun ⟨some 0, [], []⟩
        [SpeakerAction.enqueue 1, SpeakerAction.execOne]).played = [some 0] ∧
    (speakerRun ⟨some 0, [], []⟩
        [SpeakerAction.enqueue 1, SpeakerAction.setSound 1,
         SpeakerAction.execOne]).played = [some 1] ∧
    ([some 0] : List (Option Nat)) ≠ [some 1] :=
  ⟨rfl, rfl, by simp⟩

/-- C5 amended: the payload the speaker interprets is whatever the mutable
`sound` field holds at execution time — a write to that field after the
enqueue determines the sound played, since the enqueued command itself
carries only timing and gate data. -/
theorem c5_amended (s : SpeakerState) (d : ℚ) (x : Nat) :
    (speakerRun s [SpeakerAction.enqueue d, SpeakerAction.setSound x,
      SpeakerAction.execOne]).played = s.played ++ [some x] := by
  cases h : s.queued <;> simp [speakerRun, speakerStep, soundOn, h]

/-! ## Claim C6 -/

/-- C6: with no poke the outcome is `"time out"` with elapsed time `10.0`;
with a poke the elapsed time is the measured time since the timer start, the
outcome is `"correct"` — with a reward dispensed on the rewarded side —
exactly when `nose_poke_side()` equals the rewarded side, and `"both"`
(matching neither single side) yields `"incorrect"` with no reward. -/
theorem c6_outcome (tdiff : ℚ) (side correct : String)
    (hc : correct = "left" ∨ correct = "right") :
    outcomeStep false tdiff side correct = ("time out", 10, false) ∧
    (outcomeStep true tdiff side correct).2.1 = tdiff ∧
    ((outcomeStep true tdiff side correct).1 = "correct" ↔ side = correct) ∧
    ((outcomeStep true tdiff side correct).2.2 = true ↔ side = correct) ∧
    (side = "both" → (outcomeStep true tdiff side correct).1 = "incorrect" ∧
      (outcomeStep true tdiff side correct).2.2 = false) := by
  have hboth : side = "both" → side ≠ correct := by
    intro hb
    rcases hc with hc | hc <;> rw [hb, hc] <;> decide
  by_cases h : side = correct
  · exact ⟨by simp [outcomeStep], by simp [outcomeStep, h], by simp [outcomeStep, h],
      by simp [outcomeStep, h], fun hb => absurd h (hboth hb)⟩
  · exact ⟨by simp [outcomeStep], by simp [outcomeStep, h], by simp [outcomeStep, h],
      by simp [outcomeStep, h], fun _ => by simp [outcomeStep, h]⟩

/-- C6 witness: the timeout case and the `"both"` case at concrete inputs. -/
theorem c6_outcome_witness :
    outcomeStep false 3 "both" "left" = ("time out", 10, false) ∧
    (outcomeStep true 3 "both" "left").2.1 = 3 ∧
    ((outcomeStep true 3 "both" "left").1 = "correct" ↔ ("both" : String) = "left") ∧
    ((outcomeStep true 3 "both" "left").2.2 = true ↔ ("both" : String) = "left") ∧
    (("both" : String) = "both" → (outcomeStep true 3 "both" "left").1 = "incorrect" ∧
      (outcomeStep true 3 "both" "left").2.2 = false) :=
  c6_outcome 3 "both" "left" (Or.inl rfl)

/-! ## Claim C7 -/

/-- C7: after `b'1'` then `b'3'` the monitor reports `in_trial_zone`,
`left_nose_poke` and `nose_poke_side() == "left"`; after `b'3'` and `b'4'`
with no intervening clear, `nose_poke_side() == "both"`; and in general
`nose_poke_side` returns `"left"`, `"right"`, `"both"` or `"none"` according
to which poke flags are set. -/
theorem c7_poke_side :
    ((Monitor.receive (Monitor.receive Monitor.init Monitor.MOUSE_IN)
        Monitor.LEFT_NOSE_POKE).in_trial_zone = true ∧
     (Monitor.receive (Monitor.receive Monitor.init Monitor.MOUSE_IN)
        Monitor.LEFT_NOSE_POKE).left_nose_poke = true ∧
     Monitor.nose_poke_side (Monitor.receive (Monitor.receive Monitor.init
        Monitor.MOUSE_IN) Monitor.LEFT_NOSE_POKE) = "left") ∧
    Monitor.nose_poke_side (Monitor.receive (Monitor.receive Monitor.init
        Monitor.LEFT_NOSE_POKE) Monitor.RIGHT_NOSE_POKE) = "both" ∧
    ∀ s : MonitorState,
      (Monitor.nose_poke_side s = "left" ↔
        s.left_nose_poke = true ∧ s.right_nose_poke = false) ∧
      (Monitor.nose_poke_side s = "right" ↔
        s.right_nose_poke = true ∧ s.left_nose_poke = false) ∧
      (Monitor.nose_poke_side s = "both" ↔
        s.left_nose_poke = true ∧ s.right_nose_poke = true) ∧
      (Monitor.nose_poke_side s = "none" ↔
        s.left_nose_poke = false ∧ s.right_nose_poke = false) := by
  refine ⟨by decide, by decide, ?_⟩
  rintro ⟨a, b, c, d⟩
  cases a <;> cases b <;> cases c <;> cases d <;> decide

/-! ## Claim C8 -/

/-- C8: a received message that is none of the five flag constants sets the
`stop` flag (it is never silently ignored), after which the accept loop's
guard `running()` is false — it processes no further messages — and the trial
loop's guard `monitor.running()` is false as well. -/
theorem c8_unknown_signal_stops (s : MonitorState) (data : List Nat)
    (rest : List (List Nat))
    (h : data ∉ [Monitor.STOP, Monitor.MOUSE_IN, Monitor.MOUSE_OUT,
      Monitor.LEFT_NOSE_POKE, Monitor.RIGHT_NOSE_POKE]) :
    (Monitor.receive s data).stop = true ∧
    Monitor.running (Monitor.receive s data) = false ∧
    Monitor.monitorLoop (Monitor.receive s data) rest = Monitor.receive s data := by
  simp only [List.mem_cons, List.not_mem_nil, or_false, not_or] at h
  obtain ⟨h0, h1, h2, h3, h4⟩ := h
  have hstop : (Monitor.receive s data).stop = true := by
    simp [Monitor.receive, h0, h1, h2, h3, h4]
  have hrun : Monitor.running (Monitor.receive s data) = false := by
    simp [Monitor.running, hstop]
  exact ⟨hstop, hrun, monitorLoop_of_not_running _ hrun rest⟩

/-- C8 witness: the unknown one-byte message `b'5'` (ASCII 53) stops the
session and the loop skips a pending `b'1'` message. -/
theorem c8_unknown_signal_stops_witness :
    (Monitor.receive Monitor.init [53]).stop = true ∧
    Monitor.running (Monitor.receive Monitor.init [53]) = false ∧
    Monitor.monitorLoop (Monitor.receive Monitor.init [53]) [[49]] =
      Monitor.receive Monitor.init [53] :=
  c8_unknown_signal_stops Monitor.init [53] [[49]] (by decide)

/-! ## Claim C10 -/

/-- C10: the whole received buffer is compared against the one-byte flag
constants, so any message of length other than one — the empty read of a
closed connection as well as a multi-byte message — matches no flag, falls
into the unknown-signal branch and sets `stop`. -/
theorem c10_non_single_byte_stops (s : MonitorState) (data : List Nat)
    (h : data.length ≠ 1) : (Monitor.receive s data).stop = true := by
  have h0 : data ≠ Monitor.STOP := fun e => h (by rw [e]; rfl)
  have h1 : data ≠ Monitor.MOUSE_IN := fun e => h (by rw [e]; rfl)
  have h2 : data ≠ Monitor.MOUSE_OUT := fun e => h (by rw [e]; rfl)
  have h3 : data ≠ Monitor.LEFT_NOSE_POKE := fun e => h (by rw [e]; rfl)
  have h4 : data ≠ Monitor.RIGHT_NOSE_POKE := fun e => h (by rw [e]; rfl)
  simp [Monitor.receive, h0, h1, h2, h3, h4]

/-- C10 witness: the zero-byte message and a two-byte message both stop the
session. -/
theorem c10_non_single_byte_stops_witness :
    (Monitor.receive Monitor.init []).stop = true ∧
    (Monitor.receive Monitor.init [49, 51]).stop = true :=
  ⟨c10_non_single_byte_stops Monitor.init [] (by decide),
   c10_non_single_byte_stops Monitor.init [49, 51] (by decide)⟩

/-! ## Claim C9 -/

/-- In the scheduler's call trace the `on()` call of the `k`-th queued
command sits at position `2 * k`. -/
lemma playerEvents_on_pos : ∀ (cmds : List Command) (i k : Nat),
    k < cmds.length →
    List.indexOf (ControllerEv.on (i + k)) (playerEvents i cmds) = 2 * k := by
  intro cmds
  induction cmds with
  | nil => intro i k hk; simp at hk
  | cons c rest ih =>
    intro i k hk
    cases k with
    | zero => simp [playerEvents]
    | succ k' =>
      have hne1 : ControllerEv.on i ≠ ControllerEv.on (i + (k' + 1)) := by
        simp only [ne_eq, ControllerEv.on.injEq]
        omega
      have hne2 : ControllerEv.off i ≠ ControllerEv.on (i + (k' + 1)) := by simp
      rw [playerEvents, List.indexOf_cons_ne _ hne1, List.indexOf_cons_ne _ hne2]
      have harith : i + (k' + 1) = (i + 1) + k' := by omega
      rw [harith, ih (i + 1) k' (by simpa using hk)]
      omega

/-- In the scheduler's call trace the `off()` call of the `k`-th queued
command sits at position `2 * k + 1`. -/
lemma playerEvents_off_pos : ∀ (cmds : List Command) (i k : Nat),
    k < cmds.length →
    List.indexOf (ControllerEv.off (i + k)) (playerEvents i cmds) = 2 * k + 1 := by
  intro cmds
  induction cmds with
  | nil => intro i k hk; simp at hk
  | cons c rest ih =>
    intro i k hk
    cases k with
    | zero =>
      have hne : ControllerEv.on i ≠ ControllerEv.off (i + 0) := by simp
      rw [playerEvents, List.indexOf_cons_ne _ hne]
      simp
    | succ k' =>
      have hne1 : ControllerEv.on i ≠ ControllerEv.off (i + (k' + 1)) := by simp
      have hne2 : ControllerEv.off i ≠ ControllerEv.off (i + (k' + 1)) := by
        simp only [ne_eq, ControllerEv.off.injEq]
        omega
      rw [playerEvents, List.indexOf_cons_ne _ hne1, List.indexOf_cons_ne _ hne2]
      have harith : i + (k' + 1) = (i + 1) + k' := by omega
      rw [harith, ih (i + 1) k' (by simpa using hk)]
      omega

/-- C9: commands run strictly in queue (FIFO) order with one command in
flight at a time — in the trace of backend calls the `j`-th command's `on()`
is at position `2j` and its `off()` at `2j + 1`, so for any command `i`
enqueued before command `j`, command `i`'s `off()` call happens before
command `j`'s `on()` call. -/
theorem c9_fifo_off_before_on (cmds : List Command) (i j : Nat)
    (hij : i < j) (hj : j < cmds.length) :
    List.indexOf (ControllerEv.on j) (playerEvents 0 cmds) = 2 * j ∧
    List.indexOf (ControllerEv.off i) (playerEvents 0 cmds) = 2 * i + 1 ∧
    List.indexOf (ControllerEv.off i) (playerEvents 0 cmds) <
      List.indexOf (ControllerEv.on j) (playerEvents 0 cmds) := by
  have hi : i < cmds.length := lt_trans hij hj
  have hon := playerEvents_on_pos cmds 0 j hj
  have hoff := playerEvents_off_pos cmds 0 i hi
  rw [Nat.zero_add] at hon hoff
  exact ⟨hon, hoff, by omega⟩

/-- C9 witness: a two-command queue, commands 0 and 1. -/
theorem c9_fifo_off_before_on_witness :
    List.indexOf (ControllerEv.on 1)
      (playerEvents 0 [⟨1, 0, 0, true, none⟩, ⟨2, 0, 0, true, none⟩]) = 2 ∧
    List.indexOf (ControllerEv.off 0)
      (playerEvents 0 [⟨1, 0, 0, true, none⟩, ⟨2, 0, 0, true, none⟩]) = 2 * 0 + 1 ∧
    List.indexOf (ControllerEv.off 0)
      (playerEvents 0 [⟨1, 0, 0, true, none⟩, ⟨2, 0, 0, true, none⟩]) <
      List.indexOf (ControllerEv.on 1)
        (playerEvents 0 [⟨1, 0, 0, true, none⟩, ⟨2, 0, 0, true, none⟩]) :=
  c9_fifo_off_before_on [⟨1, 0, 0, true, none⟩, ⟨2, 0, 0, true, none⟩] 0 1
    (by decide) (by decide)

/-! ## Claim C1 -/

/-- `len(set(l)) == 1` means: `l` is nonempty and all its entries coincide. -/
lemma toFinset_card_eq_one_iff (l : List Int) :
    l.toFinset.card = 1 ↔ l ≠ [] ∧ ∀ x ∈ l, ∀ y ∈ l, x = y := by
  constructor
  · intro h
    obtain ⟨a, ha⟩ := Finset.card_eq_one.mp h
    have hmem : ∀ x ∈ l, x = a := by
      intro x hx
      have hx' : x ∈ l.toFinset := List.mem_toFinset.mpr hx
      rw [ha] at hx'
      exact Finset.mem_singleton.mp hx'
    have hne : l ≠ [] := by
      intro e
      rw [e] at ha
      exact absurd ha.symm (Finset.singleton_ne_empty a)
    exact ⟨hne, fun x hx y hy => (hmem x hx).trans (hmem y hy).symm⟩
  · rintro ⟨hne, hall⟩
    obtain ⟨a, t, rfl⟩ := List.exists_cons_of_ne_nil hne
    have hsing : (a :: t).toFinset = {a} := by
      ext y
      simp only [List.mem_toFinset, Finset.mem_singleton]
      exact ⟨fun hy => hall y hy a (by simp), fun hy => by simp [hy]⟩
    rw [hsing]
    exact Finset.card_singleton a

/-- C1 counterexample: with `maxRepeat = 3` and the all-zero random stream,
two successive calls on a fresh instance give `["left", "right"]` — the
second side is forced opposite although the history holds a single entry,
far from full — while the algorithm the claim states (forced flip only when
the history is full and homogeneous) gives `["left", "left"]`. -/
theorem c1_counterexample :
    Trials.runSides (Trials.init 3) (fun _ => 0) 0 2 = some ["left", "right"] ∧
    TrialsClaim.runSides (Trials.init 3) (fun _ => 0) 0 2 = some ["left", "left"] ∧
    some ["left", "right"] ≠ some ["left", "left"] :=
  ⟨by decide, by decide, by simp⟩

/-- C1 amended: `Trials.next` forces the opposite of the previous side
exactly when the allocation history is nonempty and every entry in it is the
same side — full or not — and chooses by a fresh uniform draw in every other
case. -/
theorem c1_amended_flip_iff_nonempty_homogeneous (s : Trials)
    (rng : Nat → Fin 2) (k : Nat) :
    Trials.next s rng k = TrialsAmended.next s rng k := by
  unfold Trials.next TrialsAmended.next
  by_cases h : s.buffer ≠ [] ∧ ∀ x ∈ s.buffer, ∀ y ∈ s.buffer, x = y
  · rw [if_pos ((toFinset_card_eq_one_iff s.buffer).mpr h), if_pos h]
  · rw [if_neg fun hc => h ((toFinset_card_eq_one_iff s.buffer).mp hc), if_neg h]

/-! ## Claim C2

The invariant proof: the buffer always equals the last `max_repeat` produced
positions, `reward_position` is the last buffer entry, and the produced
position sequence never contains `max_repeat + 1` equal entries in a row —
because as soon as the last `max_repeat` agree the `len(set(...)) == 1` test
fires and the next position is flipped. -/

/-- `"left"` for position `0`, `"right"` for position `1`. -/
def intSide (p : Int) : String := if p = 0 then "left" else "right"

/-- A suffix is recovered by dropping all but its length. -/
lemma suffix_eq_drop {α : Type} {t l : List α} (h : t <:+ l) :
    l.drop (l.length - t.length) = t := by
  obtain ⟨w, rfl⟩ := h
  have harith : (w ++ t).length - t.length = w.length := by simp
  rw [harith, List.drop_left]

/-- An infix of `l ++ [a]` lies inside `l` or is a suffix of `l ++ [a]`. -/
lemma infix_concat_cases {α : Type} {t l : List α} {a : α}
    (h : t <:+: l ++ [a]) : t <:+: l ∨ t <:+ l ++ [a] := by
  obtain ⟨s, u, hsu⟩ := h
  rcases List.eq_nil_or_concat' u with rfl | ⟨u', b, rfl⟩
  · exact Or.inr ⟨s, by simpa using hsu⟩
  · rw [← List.append_assoc] at hsu
    exact Or.inl ⟨s, u', (List.append_inj' hsu (by simp)).1⟩

/-- A block of `m + 1` equal entries that is a suffix of `l ++ [a]` forces
`a` itself to be that entry and leaves a block of `m` as a suffix of `l`. -/
lemma replicate_suffix_concat {α : Type} {m : Nat} {x a : α} {l : List α}
    (h : List.replicate (m + 1) x <:+ l ++ [a]) :
    x = a ∧ List.replicate m x <:+ l := by
  obtain ⟨w, hw⟩ := h
  rw [List.replicate_succ' m x, ← List.append_assoc] at hw
  have h2 := List.append_inj' hw (by simp)
  exact ⟨by simpa using h2.2, ⟨w, h2.1⟩⟩

/-- The reachable-state invariant of `Trials` after the position sequence
`outs` has been produced. -/
def GoodState (m : Nat) (outs : List Int) (s : Trials) : Prop :=
  s.max_repeat = m ∧
  s.buffer = outs.drop (outs.length - m) ∧
  s.reward_position = s.buffer.getLast? ∧
  (∀ x ∈ outs, x = 0 ∨ x = 1) ∧
  ∀ x : Int, ¬ List.replicate (m + 1) x <:+: outs

lemma goodState_init (m : Nat) : GoodState m [] (Trials.init m) := by
  refine ⟨rfl, by simp [Trials.init], rfl, by simp, ?_⟩
  intro x h
  obtain ⟨s, u, hsu⟩ := h
  have hlen := congrArg List.length hsu
  simp at hlen

/-- The buffer update `buffer = (buffer + [pos])[-max_repeat:]` keeps the
buffer equal to the trailing `max_repeat` entries of the output sequence. -/
lemma pySliceLast_update (outs : List Int) (pos : Int) (m : Nat) (hm : 1 ≤ m) :
    pySliceLast (outs.drop (outs.length - m) ++ [pos]) m =
      (outs ++ [pos]).drop ((outs ++ [pos]).length - m) := by
  have hm0 : m ≠ 0 := by omega
  rw [pySliceLast, if_neg hm0]
  rcases le_or_lt m outs.length with hle | hlt
  · have hlen : (outs.drop (outs.length - m)).length = m := by
      rw [List.length_drop]
      omega
    have h1 : (outs.drop (outs.length - m) ++ [pos]).length - m = 1 := by
      simp only [List.length_append, hlen, List.length_singleton]
      omega
    rw [h1]
    have h2 : (1 : Nat) ≤ (outs.drop (outs.length - m)).length := by omega
    rw [List.drop_append_of_le_length h2, List.drop_drop]
    have h3 : (outs ++ [pos]).length - m = (outs.length - m) + 1 := by
      simp only [List.length_append, List.length_singleton]
      omega
    have h4 : (outs.length - m) + 1 ≤ outs.length := by omega
    rw [h3, List.drop_append_of_le_length h4]
  · have h0 : outs.length - m = 0 := by omega
    have h1 : (outs.drop 0 ++ [pos]).length - m = 0 := by
      simp only [List.drop_zero, List.length_append, List.length_singleton]
      omega
    have h2 : (outs ++ [pos]).length - m = 0 := by
      simp only [List.length_append, List.length_singleton]
      omega
    rw [h0, h1, h2]
    simp

/-- The last entry of the updated buffer is the just-produced position. -/
lemma buffer_getLast (outs : List Int) (pos : Int) (m : Nat) (hm : 1 ≤ m) :
    ((outs ++ [pos]).drop ((outs ++ [pos]).length - m)).getLast? = some pos := by
  have h1 : (outs ++ [pos]).length - m ≤ outs.length := by
    simp only [List.length_append, List.length_singleton]
    omega
  rw [List.drop_append_of_le_length h1, List.getLast?_concat]

/-- For a position in `{0, 1}` the tail of `Trials.next` always succeeds and
returns `positions[pos]`. -/
lemma finish_eq (s : Trials) (pos : Int) (k' : Nat) (hpos : pos = 0 ∨ pos = 1) :
    Trials.finish s pos k' =
      some ((s.i + 1, intSide pos),
        { s with buffer := pySliceLast (s.buffer ++ [pos]) s.max_repeat,
                 i := s.i + 1, reward_position := some pos }, k') := by
  rcases hpos with rfl | rfl <;> rfl

/-- `Trials.next` on the flip branch, with the previous side exposed. -/
lemma next_flip_eq (s : Trials) (rng : Nat → Fin 2) (k : Nat)
    (hcard : s.buffer.toFinset.card = 1) (p : Int)
    (hp : s.reward_position = some p) :
    s.next rng k = s.finish |p - 1| k := by
  unfold Trials.next
  rw [if_pos hcard, hp]

/-- `Trials.next` on the random branch. -/
lemma next_rand_eq (s : Trials) (rng : Nat → Fin 2) (k : Nat)
    (hcard : ¬ s.buffer.toFinset.card = 1) :
    s.next rng k = s.finish ((rng k).val : Int) (k + 1) := by
  unfold Trials.next
  rw [if_neg hcard]

/-- One successful `Trials.next` call from a reachable state produces a
position in `{0, 1}` and reaches a reachable state for the extended output
sequence — in particular the extended sequence still has no
`max_repeat + 1` run. -/
lemma next_step (m : Nat) (hm : 1 ≤ m) (s : Trials) (outs : List Int)
    (rng : Nat → Fin 2) (k : Nat) (hg : GoodState m outs s)
    (res : (Nat × String) × Trials × Nat) (h : s.next rng k = some res) :
    ∃ pos : Int, (pos = 0 ∨ pos = 1) ∧ res.1.2 = intSide pos ∧
      GoodState m (outs ++ [pos]) res.2.1 := by
  obtain ⟨hmr, hbuf, hrp, hel, hnr⟩ := hg
  have hsub : ∀ y ∈ s.buffer, y ∈ outs := by
    intro y hy
    rw [hbuf] at hy
    exact List.mem_of_mem_drop hy
  have hrepl : ∀ x : Int, List.replicate m x <:+ outs →
      s.buffer = List.replicate m x := by
    intro x hx
    have hd := suffix_eq_drop hx
    rw [List.length_replicate] at hd
    rw [hbuf, hd]
  by_cases hcard : s.buffer.toFinset.card = 1
  · -- flip branch: `abs(reward_position - 1)`
    obtain ⟨hne, hall⟩ := (toFinset_card_eq_one_iff s.buffer).mp hcard
    obtain ⟨p, hlast, hpmemb⟩ : ∃ p, s.reward_position = some p ∧ p ∈ s.buffer :=
      ⟨s.buffer.getLast hne,
        by rw [hrp, List.getLast?_eq_getLast_of_ne_nil hne],
        List.getLast_mem hne⟩
    rw [next_flip_eq s rng k hcard p hlast] at h
    have hp01 : p = 0 ∨ p = 1 := hel _ (hsub _ hpmemb)
    have hpos01 : |p - 1| = 0 ∨ |p - 1| = 1 := by
      rcases hp01 with hp | hp <;> rw [hp] <;> decide
    rw [finish_eq s _ k hpos01] at h
    obtain rfl := Option.some.inj h
    refine ⟨|p - 1|, hpos01, rfl, ?_⟩
    have hbuf' : pySliceLast (s.buffer ++ [|p - 1|]) s.max_repeat =
        (outs ++ [|p - 1|]).drop ((outs ++ [|p - 1|]).length - m) := by
      rw [hbuf, hmr]
      exact pySliceLast_update outs _ m hm
    refine ⟨hmr, hbuf', ?_, ?_, ?_⟩
    · show some |p - 1| = (pySliceLast (s.buffer ++ [|p - 1|]) s.max_repeat).getLast?
      rw [hbuf', buffer_getLast _ _ m hm]
    · intro x hx
      rcases List.mem_append.mp hx with hx | hx
      · exact hel x hx
      · rw [List.mem_singleton.mp hx]
        exact hpos01
    · intro x hx
      rcases infix_concat_cases hx with hin | hsuf
      · exact hnr x hin
      · obtain ⟨hxa, hsufm⟩ := replicate_suffix_concat hsuf
        have hbr := hrepl x hsufm
        have hpx : p = x := by
          have hm2 := hpmemb
          rw [hbr] at hm2
          exact (List.mem_replicate.mp hm2).2
        rw [← hpx] at hxa
        rcases hp01 with hp | hp <;> rw [hp] at hxa <;> exact absurd hxa (by decide)
  · -- random branch: `random.randint(0, 1)`
    rw [next_rand_eq s rng k hcard] at h
    have hv : (rng k).val = 0 ∨ (rng k).val = 1 := by
      have := (rng k).isLt
      omega
    have hpos01 : ((rng k).val : Int) = 0 ∨ ((rng k).val : Int) = 1 := by
      rcases hv with hv | hv <;> rw [hv] <;> simp
    rw [finish_eq s _ (k + 1) hpos01] at h
    obtain rfl := Option.some.inj h
    refine ⟨((rng k).val : Int), hpos01, rfl, ?_⟩
    have hbuf' : pySliceLast (s.buffer ++ [((rng k).val : Int)]) s.max_repeat =
        (outs ++ [((rng k).val : Int)]).drop
          ((outs ++ [((rng k).val : Int)]).length - m) := by
      rw [hbuf, hmr]
      exact pySliceLast_update outs _ m hm
    refine ⟨hmr, hbuf', ?_, ?_, ?_⟩
    · show some _ = (pySliceLast (s.buffer ++ _) s.max_repeat).getLast?
      rw [hbuf', buffer_getLast _ _ m hm]
    · intro x hx
      rcases List.mem_append.mp hx with hx | hx
      · exact hel x hx
      · rw [List.mem_singleton.mp hx]
        exact hpos01
    · intro x hx
      rcases infix_concat_cases hx with hin | hsuf
      · exact hnr x hin
      · obtain ⟨hxa, hsufm⟩ := replicate_suffix_concat hsuf
        have hbr := hrepl x hsufm
        refine hcard ((toFinset_card_eq_one_iff s.buffer).mpr ⟨?_, ?_⟩)
        · rw [hbr]
          simp only [ne_eq, List.replicate_eq_nil_iff]
          omega
        · intro a ha b hb
          rw [hbr] at ha hb
          rw [(List.mem_replicate.mp ha).2, (List.mem_replicate.mp hb).2]

/-- Along any successful run from a reachable state, the produced sides are
the images of positions in `{0, 1}` and the extended position sequence never
contains a `max_repeat + 1` run. -/
lemma runSides_good (m : Nat) (hm : 1 ≤ m) :
    ∀ (n : Nat) (s : Trials) (outs : List Int) (rng : Nat → Fin 2) (k : Nat)
      (l : List String), GoodState m outs s →
      Trials.runSides s rng k n = some l →
      ∃ pl : List Int, (∀ x ∈ pl, x = 0 ∨ x = 1) ∧ l = pl.map intSide ∧
        ∀ x : Int, ¬ List.replicate (m + 1) x <:+: outs ++ pl := by
  intro n
  induction n with
  | zero =>
    intro s outs rng k l hg h
    simp only [Trials.runSides, Option.some.injEq] at h
    exact ⟨[], by simp, by simp [← h], by simpa using hg.2.2.2.2⟩
  | succ n ih =>
    intro s outs rng k l hg h
    simp only [Trials.runSides] at h
    cases hnext : s.next rng k with
    | none => rw [hnext] at h; simp at h
    | some res =>
      obtain ⟨⟨ri, rside⟩, rs, rk⟩ := res
      rw [hnext] at h
      simp only at h
      obtain ⟨pos, hpos, hside, hg'⟩ := next_step m hm s outs rng k hg _ hnext
      cases hrest : Trials.runSides rs rng rk n with
      | none => rw [hrest] at h; simp at h
      | some rest =>
        rw [hrest] at h
        simp only [Option.some.injEq] at h
        obtain ⟨pl, hpl01, hplmap, hplnr⟩ := ih rs (outs ++ [pos]) rng rk rest hg' hrest
        refine ⟨pos :: pl, ?_, ?_, ?_⟩
        · intro x hx
          rcases List.mem_cons.mp hx with rfl | hx
          · exact hpos
          · exact hpl01 x hx
        · rw [← h, List.map_cons, ← hside, ← hplmap]
        · intro x
          have := hplnr x
          simpa [List.append_assoc] using this

/-- A pure prefix of a mapped list is the image of a prefix. -/
lemma map_take_pull {α β : Type} (f : α → β) :
    ∀ (t : List β) (l : List α), (∃ u, t ++ u = l.map f) →
      ∃ t', t = t'.map f ∧ ∃ u', t' ++ u' = l
  | [], l, _ => ⟨[], rfl, l, rfl⟩
  | b :: t2, [], ⟨u, hu⟩ => by simp at hu
  | b :: t2, a :: l', ⟨u, hu⟩ => by
    simp only [List.map_cons, List.cons_append, List.cons.injEq] at hu
    obtain ⟨hb, hrest⟩ := hu
    obtain ⟨t2', ht2, u', hu'⟩ := map_take_pull f t2 l' ⟨u, hrest⟩
    exact ⟨a :: t2', by simp [hb, ht2], u', by simp [hu']⟩

/-- An infix of a mapped list is the image of an infix. -/
lemma map_pull {α β : Type} (f : α → β) :
    ∀ (l : List α) (t s u : List β), s ++ t ++ u = l.map f →
      ∃ t', t = t'.map f ∧ t' <:+: l := by
  intro l
  induction l with
  | nil =>
    intro t s u h
    simp only [List.map_nil, List.append_eq_nil] at h
    exact ⟨[], by simp [h.1.2], [], [], by simp⟩
  | cons a l2 ih =>
    intro t s u h
    cases s with
    | nil =>
      simp only [List.nil_append] at h
      obtain ⟨t', ht, u', hu'⟩ := map_take_pull f t (a :: l2) ⟨u, h⟩
      exact ⟨t', ht, [], u', by simpa using hu'⟩
    | cons b s2 =>
      simp only [List.map_cons, List.cons_append, List.cons.injEq] at h
      obtain ⟨hb, hrest⟩ := h
      obtain ⟨t', ht, sp, su, hsp⟩ := ih t s2 u hrest
      exact ⟨t', ht, a :: sp, su, by simp [hsp]⟩

/-- C2: for every `maxRepeat ≥ 1`, every random stream and every number of
successive `Trials.next()` calls on one fresh instance, the returned reward
sides contain no run of `maxRepeat + 1` consecutive identical sides. -/
theorem c2_no_long_runs (m : Nat) (hm : 1 ≤ m) (rng : Nat → Fin 2) (n : Nat)
    (l : List String)
    (h : Trials.runSides (Trials.init m) rng 0 n = some l) :
    ¬ ∃ x : String, List.replicate (m + 1) x <:+: l := by
  rintro ⟨x, hx⟩
  obtain ⟨pl, hpl01, rfl, hnr⟩ :=
    runSides_good m hm n (Trials.init m) [] rng 0 l (goodState_init m) h
  obtain ⟨s, u, hsu⟩ := hx
  obtain ⟨t', ht, htinf⟩ := map_pull intSide pl (List.replicate (m + 1) x) s u hsu
  have hlen : t'.length = m + 1 := by
    have := congrArg List.length ht
    simpa using this.symm
  have htmem : ∀ y ∈ t', y = 0 ∨ y = 1 := fun y hy =>
    hpl01 y (htinf.sublist.subset hy)
  have htmap : ∀ y ∈ t', intSide y = x := by
    intro y hy
    exact (List.eq_replicate_iff.mp ht.symm).2 _ (List.mem_map_of_mem intSide hy)
  have htne : t' ≠ [] := by
    intro e
    rw [e] at hlen
    simp at hlen
  obtain ⟨c, t'', rfl⟩ := List.exists_cons_of_ne_nil htne
  have hcmem : c ∈ c :: t'' := List.mem_cons_self c t''
  have hallc : ∀ y ∈ c :: t'', y = c := by
    intro y hy
    have hy01 := htmem y hy
    have hc01 := htmem c hcmem
    have hyc : intSide y = intSide c := (htmap y hy).trans (htmap c hcmem).symm
    rcases hy01 with rfl | rfl <;> rcases hc01 with rfl | rfl <;>
      first
        | rfl
        | exact absurd hyc (by decide)
  have hrep : c :: t'' = List.replicate (m + 1) c :=
    List.eq_replicate_iff.mpr ⟨hlen, hallc⟩
  rw [hrep] at htinf
  exact hnr c (by simpa using htinf)

/-- C2 witness: `maxRepeat = 1`, the all-zero stream, two calls — the
produced sides `["left", "right"]` contain no run of two equal sides. -/
theorem c2_no_long_runs_witness :
    ¬ ∃ x : String, List.replicate 2 x <:+: ["left", "right"] :=
  c2_no_long_runs 1 (by decide) (fun _ => 0) 2 ["left", "right"] (by decide)

end Mazeconnect
